import Mathlib

/-!
Shallow embedding of the GameTraders order/settlement engine (src/app.py).

Cash balances and order prices (Python floats) are modelled as rationals;
share counts (Python ints) as integers.  Database rows become entries of
lists inside `AppState`; SQLAlchemy `filter_by(...).first()` queries become
`List.find?`, relationship collections become `List.filter`, and in-place
row mutation becomes a `List.map` that rewrites the matching row.  Each API
handler returns the committed state together with an `Except` carrying the
handler's error string (or its success payload); a handler that returns an
error before `db.session.commit()` leaves the state unchanged, which the
embedding reflects by returning the input state.
-/

deriving instance DecidableEq for Except

set_option allowUnsafeReducibility true in
attribute [semireducible] Rat.add Rat.sub Rat.mul Rat.neg Rat.div Rat.inv

namespace GameTraders

/-- One row of the `Game` table (src/app.py, class Game).  `playerNames` is
the parsed comma-separated list of tradeable-entity names;
`positionValues` is the parsed JSON of `position_values`;
`finalScores` is the parsed JSON of `final_scores` (absent until set). -/
structure Game where
  gid : Nat
  status : String
  scoringMode : String
  includeCash : Bool
  playerNames : List String
  positionValues : List (String × ℚ)
  finalScores : Option (List (String × ℚ))
  winnerId : Option Nat
deriving Repr, DecidableEq

/-- One row of the `Participant` table (src/app.py, class Participant). -/
structure Participant where
  pid : Nat
  gameId : Nat
  name : String
  role : String
  accessToken : Nat
  cash : ℚ
deriving Repr, DecidableEq

/-- One row of the `Holding` table (src/app.py, class Holding). -/
structure Holding where
  participantId : Nat
  playerName : String
  shares : ℤ
deriving Repr, DecidableEq

/-- One row of the `Order` table (src/app.py, class Order). -/
structure Order where
  oid : Nat
  gameId : Nat
  participantId : Nat
  orderType : String
  playerName : String
  price : ℚ
  shares : ℤ
  status : String
deriving Repr, DecidableEq

/-- One row of the `Transaction` table (src/app.py, class Transaction). -/
structure Transaction where
  gameId : Nat
  buyerId : Nat
  sellerId : Nat
  playerName : String
  price : ℚ
  shares : ℤ
deriving Repr, DecidableEq

/-- The whole database.  `nextOrderId` models the autoincrement primary key
of the `Order` table. -/
structure AppState where
  games : List Game
  participants : List Participant
  holdings : List Holding
  orders : List Order
  transactions : List Transaction
  nextOrderId : Nat
deriving Repr, DecidableEq

/-- `Participant.query.filter_by(access_token=token).first()`. -/
def findParticipantByToken (s : AppState) (token : Nat) : Option Participant :=
  s.participants.find? (fun p => p.accessToken == token)

/-- `Participant.query.get(pid)`. -/
def findParticipant (s : AppState) (pid : Nat) : Option Participant :=
  s.participants.find? (fun p => p.pid == pid)

/-- Dereferencing the `participant.game` relationship. -/
def findGame (s : AppState) (gid : Nat) : Option Game :=
  s.games.find? (fun g => g.gid == gid)

/-- `Order.query.get(order_id)`. -/
def findOrder (s : AppState) (oid : Nat) : Option Order :=
  s.orders.find? (fun o => o.oid == oid)

/-- `Holding.query.filter_by(participant_id=pid, player_name=entity).first()`. -/
def findHolding (s : AppState) (pid : Nat) (entity : String) : Option Holding :=
  s.holdings.find? (fun h => h.participantId == pid && h.playerName == entity)

/-- Shares of `entity` held by participant `pid`: the Holding row's
`shares`, or 0 when the row is absent (`holding.shares if holding else 0`). -/
def rawShares (s : AppState) (pid : Nat) (entity : String) : ℤ :=
  match findHolding s pid entity with
  | some h => h.shares
  | none => 0

/-- Shares of `entity` committed by participant `pid`'s open sell orders:
the `committed_shares` sum of src/app.py place_order (lines 356-362). -/
def committedShares (s : AppState) (pid : Nat) (entity : String) : ℤ :=
  ((s.orders.filter (fun o =>
      o.participantId == pid && o.playerName == entity &&
      o.orderType == "sell" && o.status == "open")).map (fun o => o.shares)).sum

/-- Cash committed by participant `pid`'s open buy orders:
the `committed_cash` sum of src/app.py place_order (lines 372-377). -/
def committedCash (s : AppState) (pid : Nat) : ℚ :=
  ((s.orders.filter (fun o =>
      o.participantId == pid && o.status == "open" &&
      o.orderType == "buy")).map (fun o => o.price * (o.shares : ℚ))).sum

/-- `available_shares` of src/app.py place_order, also the
`availableShares(participant, entity)` query of spec §4.1. -/
def availableShares (s : AppState) (pid : Nat) (entity : String) : ℤ :=
  rawShares s pid entity - committedShares s pid entity

/-- `available_cash` of src/app.py place_order, also the
`availableCash(participant)` query of spec §4.1. -/
def availableCash (s : AppState) (p : Participant) : ℚ :=
  p.cash - committedCash s p.pid

/-- `availableCash` looked up by participant id (0 cash when absent). -/
def availableCashOf (s : AppState) (pid : Nat) : ℚ :=
  (match findParticipant s pid with
   | some p => p.cash
   | none => 0) - committedCash s pid

/-- Insertion of the freshly validated order (src/app.py lines 385-395). -/
def insertOrder (s : AppState) (gameId pid : Nat) (orderType playerName : String)
    (price : ℚ) (shares : ℤ) : AppState × Except String Nat :=
  let o : Order :=
    { oid := s.nextOrderId, gameId := gameId, participantId := pid,
      orderType := orderType, playerName := playerName, price := price,
      shares := shares, status := "open" }
  ({ s with orders := s.orders ++ [o], nextOrderId := s.nextOrderId + 1 },
   Except.ok o.oid)

/-- src/app.py `place_order` (lines 327-397): validate the order against
available (encumbrance-adjusted) resources, then insert it. -/
def place_order (s : AppState) (token : Nat) (orderType playerName : String)
    (price : ℚ) (shares : ℤ) : AppState × Except String Nat :=
  match findParticipantByToken s token with
  | none => (s, Except.error "Invalid token")
  | some participant =>
    match findGame s participant.gameId with
    | none => (s, Except.error "Invalid token")
    | some game =>
      if game.status = "ended" then (s, Except.error "Game has ended")
      else if price ≤ 0 ∨ shares ≤ 0 then (s, Except.error "Invalid price or shares")
      else if orderType = "sell" then
        if availableShares s participant.pid playerName < shares then
          (s, Except.error "Not enough shares")
        else
          insertOrder s game.gid participant.pid orderType playerName price shares
      else if orderType = "buy" then
        if availableCash s participant < price * (shares : ℚ) then
          (s, Except.error "Not enough cash")
        else
          insertOrder s game.gid participant.pid orderType playerName price shares
      else (s, Except.error "Invalid order type")

/-- `order.status = 'cancelled'` on the row with id `oid`. -/
def cancelOrderIn (s : AppState) (oid : Nat) : AppState :=
  { s with orders := s.orders.map (fun o =>
      if o.oid = oid then { o with status := "cancelled" } else o) }

/-- The settlement block of src/app.py execute_order (lines 454-514):
move cash, move shares (find-or-create the buyer's Holding), append the
Transaction, and reduce or fill the order. -/
def settle (s : AppState) (gameId : Nat) (order : Order) (buyerId sellerId : Nat)
    (qty : ℤ) : AppState :=
  let totalCost : ℚ := order.price * (qty : ℚ)
  let participants :=
    (s.participants.map (fun p =>
        if p.pid = buyerId then { p with cash := p.cash - totalCost } else p)).map
      (fun p => if p.pid = sellerId then { p with cash := p.cash + totalCost } else p)
  let holdings1 := s.holdings.map (fun h =>
    if h.participantId = sellerId ∧ h.playerName = order.playerName then
      { h with shares := h.shares - qty } else h)
  let holdings2 :=
    match holdings1.find? (fun h =>
        h.participantId == buyerId && h.playerName == order.playerName) with
    | some _ =>
      holdings1.map (fun h =>
        if h.participantId = buyerId ∧ h.playerName = order.playerName then
          { h with shares := h.shares + qty } else h)
    | none =>
      holdings1 ++ [{ participantId := buyerId, playerName := order.playerName,
                      shares := qty }]
  let transactions := s.transactions ++
    [{ gameId := gameId, buyerId := buyerId, sellerId := sellerId,
       playerName := order.playerName, price := order.price, shares := qty }]
  let orders := s.orders.map (fun o =>
    if o.oid = order.oid then
      { o with shares := o.shares - qty,
               status := if o.shares - qty = 0 then "filled" else o.status }
    else o)
  { s with participants := participants, holdings := holdings2,
           transactions := transactions, orders := orders }

/-- src/app.py `execute_order` (lines 400-516).  The Python locals
`shares_to_execute` (= `sharesReq.getD order.shares`) and
`total_cost` (= `order.price * shares_to_execute`) are written inline. -/
def execute_order (s : AppState) (token orderId : Nat) (sharesReq : Option ℤ) :
    AppState × Except String Unit :=
  match findParticipantByToken s token with
  | none => (s, Except.error "Invalid token")
  | some participant =>
    match findOrder s orderId with
    | none => (s, Except.error "Order not available")
    | some order =>
      if order.status ≠ "open" then (s, Except.error "Order not available")
      else if order.participantId = participant.pid then
        (s, Except.error "Cannot execute your own order")
      else
        match findGame s participant.gameId with
        | none => (s, Except.error "Invalid token")
        | some game =>
          if game.status = "ended" then (s, Except.error "Game has ended")
          else if sharesReq.getD order.shares ≤ 0 then
            (s, Except.error "Invalid number of shares")
          else if order.shares < sharesReq.getD order.shares then
            (s, Except.error "Order only has fewer shares available")
          else
            match findParticipant s order.participantId with
            | none => (s, Except.error "Order not available")
            | some orderCreator =>
              if order.orderType = "sell" then
                -- someone is selling, the caller is buying
                if participant.cash < order.price * ((sharesReq.getD order.shares : ℤ) : ℚ) then
                  (s, Except.error "Not enough cash")
                else if rawShares s orderCreator.pid order.playerName < sharesReq.getD order.shares then
                  (cancelOrderIn s orderId, Except.error "Seller no longer has shares")
                else
                  (settle s game.gid order participant.pid orderCreator.pid
                    (sharesReq.getD order.shares), Except.ok ())
              else
                -- someone wants to buy, the caller is selling
                if rawShares s participant.pid order.playerName < sharesReq.getD order.shares then
                  (s, Except.error "Not enough shares")
                else if orderCreator.cash < order.price * ((sharesReq.getD order.shares : ℤ) : ℚ) then
                  (cancelOrderIn s orderId, Except.error "Buyer no longer has cash")
                else
                  (settle s game.gid order orderCreator.pid participant.pid
                    (sharesReq.getD order.shares), Except.ok ())

/-- src/app.py `cancel_order` (lines 552-573). -/
def cancel_order (s : AppState) (token orderId : Nat) :
    AppState × Except String Unit :=
  match findParticipantByToken s token with
  | none => (s, Except.error "Invalid token")
  | some participant =>
    match findOrder s orderId with
    | none => (s, Except.error "Order not found")
    | some order =>
      if order.participantId ≠ participant.pid then (s, Except.error "Order not found")
      else if order.status ≠ "open" then (s, Except.error "Order cannot be cancelled")
      else (cancelOrderIn s orderId, Except.ok ())

/-- src/app.py `cancel_all_orders` (lines 519-549).  The optional
`orderType` filter applies only when it is "buy" or "sell". -/
def cancel_all_orders (s : AppState) (token : Nat) (orderType : Option String) :
    AppState × Except String Nat :=
  match findParticipantByToken s token with
  | none => (s, Except.error "Invalid token")
  | some participant =>
    let sel : Order → Bool := fun o =>
      o.participantId == participant.pid && o.status == "open" &&
      (match orderType with
       | some t => if t = "buy" ∨ t = "sell" then o.orderType == t else true
       | none => true)
    let count := (s.orders.filter sel).length
    ({ s with orders := s.orders.map (fun o =>
        if sel o then { o with status := "cancelled" } else o) },
     Except.ok count)

/-- `final_scores.get(name, 0)` on the parsed scores mapping. -/
def lookupScore (scores : List (String × ℚ)) (name : String) : ℚ :=
  match scores.find? (fun kv => kv.1 == name) with
  | some kv => kv.2
  | none => 0

/-- `final_positions.get(name, 999)` (already stringified). -/
def lookupPosition (positions : List (String × String)) (name : String) : String :=
  match positions.find? (fun kv => kv.1 == name) with
  | some kv => kv.2
  | none => "999"

/-- The `p.holdings` relationship collection. -/
def participantHoldings (s : AppState) (pid : Nat) : List Holding :=
  s.holdings.filter (fun h => h.participantId == pid)

/-- The per-participant accumulation loop of the `final_points` branch of
src/app.py end_game (lines 620-627). -/
def finalPointsValue (s : AppState) (g : Game) (scores : List (String × ℚ))
    (p : Participant) : ℚ :=
  let base := (participantHoldings s p.pid).foldl
    (fun total h => total + (h.shares : ℚ) * lookupScore scores h.playerName) 0
  if g.includeCash then base + p.cash else base

/-- The per-participant accumulation loop of the `top_positions` branch of
src/app.py end_game (lines 639-647). -/
def topPositionsValue (s : AppState) (g : Game)
    (positions : List (String × String)) (p : Participant) : ℚ :=
  let base := (participantHoldings s p.pid).foldl
    (fun total h => total +
      (h.shares : ℚ) * lookupScore g.positionValues (lookupPosition positions h.playerName)) 0
  if g.includeCash then base + p.cash else base

/-- The winner-selection loop of src/app.py end_game: start from `init`
(-1 in the source) and keep the first participant whose value strictly
exceeds every earlier one. -/
def pickWinner {α : Type} [LinearOrder α] (ps : List Participant)
    (value : Participant → α) (init : α) : Option Participant :=
  (ps.foldl (fun acc p => if value p > acc.1 then (value p, some p) else acc)
    (init, none)).2

/-- Shares of the designated winning player held by `p`
(src/app.py end_game, lines 602-612); `winning_player` may be absent,
in which case no Holding row matches. -/
def outrightShares (s : AppState) (winningPlayer : Option String)
    (p : Participant) : ℤ :=
  match winningPlayer with
  | some name => rawShares s p.pid name
  | none => 0

/-- src/app.py `end_game` (lines 576-661): admin-only; cancels every open
order of the game, computes the winner under the game's scoring mode, and
marks the game ended.  Returns the winner's name. -/
def end_game (s : AppState) (token : Nat) (winningPlayer : Option String)
    (finalScores : List (String × ℚ)) (finalPositions : List (String × String)) :
    AppState × Except String (Option String) :=
  match findParticipantByToken s token with
  | none => (s, Except.error "Invalid token")
  | some participant =>
    if participant.role ≠ "admin" then
      (s, Except.error "Only admin can end the game")
    else
      match findGame s participant.gameId with
      | none => (s, Except.error "Invalid token")
      | some game =>
        if game.status = "ended" then (s, Except.error "Game already ended")
        else
          let s1 : AppState := { s with orders := s.orders.map (fun o =>
            if o.gameId = game.gid ∧ o.status = "open" then
              { o with status := "cancelled" } else o) }
          let players := s.participants.filter (fun p =>
            p.gameId == game.gid && p.role == "player")
          let winner : Option Participant :=
            if game.scoringMode = "outright_winner" then
              pickWinner players (fun p => outrightShares s1 winningPlayer p) (-1 : ℤ)
            else if game.scoringMode = "final_points" then
              pickWinner players (fun p => finalPointsValue s1 game finalScores p) (-1 : ℚ)
            else if game.scoringMode = "top_positions" then
              pickWinner players (fun p => topPositionsValue s1 game finalPositions p) (-1 : ℚ)
            else none
          let games := s.games.map (fun g =>
            if g.gid = game.gid then
              { g with status := "ended",
                       winnerId := (winner.map (fun w => w.pid)),
                       finalScores := if game.scoringMode = "final_points" then
                         some finalScores else g.finalScores }
            else g)
          ({ s1 with games := games }, Except.ok (winner.map (fun w => w.name)))

/-- The five mutating engine operations, for state-invariant claims. -/
inductive Op where
  | placeOp (token : Nat) (orderType playerName : String) (price : ℚ) (shares : ℤ)
  | executeOp (token orderId : Nat) (sharesReq : Option ℤ)
  | cancelOp (token orderId : Nat)
  | cancelAllOp (token : Nat) (orderType : Option String)
  | endGameOp (token : Nat) (winningPlayer : Option String)
      (finalScores : List (String × ℚ)) (finalPositions : List (String × String))

/-- The committed state after one operation (each handler commits exactly
the state component it returns). -/
def step (s : AppState) (op : Op) : AppState :=
  match op with
  | Op.placeOp t ot pn pr sh => (place_order s t ot pn pr sh).1
  | Op.executeOp t oid q => (execute_order s t oid q).1
  | Op.cancelOp t oid => (cancel_order s t oid).1
  | Op.cancelAllOp t ot => (cancel_all_orders s t ot).1
  | Op.endGameOp t wp fs fp => (end_game s t wp fs fp).1

/-- Every cash balance and every Holding share count is nonnegative. -/
def nonnegBalances (s : AppState) : Prop :=
  (∀ p ∈ s.participants, 0 ≤ p.cash) ∧ (∀ h ∈ s.holdings, 0 ≤ h.shares)

/-- Every order row carries a nonnegative price. -/
def nonnegPrices (s : AppState) : Prop :=
  ∀ o ∈ s.orders, 0 ≤ o.price

/-- Database primary-key / uniqueness facts: participant ids are unique and
there is at most one Holding row per (participant, entity) pair. -/
def uniqueKeys (s : AppState) : Prop :=
  (s.participants.map (fun p => p.pid)).Nodup ∧
  (s.holdings.map (fun h => (h.participantId, h.playerName))).Nodup

/-- Sum of all cash. -/
def totalCash (s : AppState) : ℚ :=
  (s.participants.map (fun p => p.cash)).sum

/-- Sum over all participants of the shares of one entity. -/
def entityShares (s : AppState) (entity : String) : ℤ :=
  ((s.holdings.filter (fun h => h.playerName == entity)).map (fun h => h.shares)).sum

/-- availableCash and availableShares nonnegative for every participant. -/
def availNonneg (s : AppState) : Prop :=
  ∀ p ∈ s.participants,
    0 ≤ availableCash s p ∧ ∀ e : String, 0 ≤ availableShares s p.pid e

/-! Concrete states used to instantiate the theorems. -/

/-- An active two-entity game. -/
def gameA : Game :=
  { gid := 1, status := "active", scoringMode := "final_points",
    includeCash := true, playerNames := ["Alice", "Bob"],
    positionValues := [], finalScores := none, winnerId := none }

/-- Participant X: 100 cash, no holdings. -/
def xA : Participant :=
  { pid := 1, gameId := 1, name := "X", role := "player", accessToken := 11, cash := 100 }

/-- Participant W: no cash, one share of Bob. -/
def wA : Participant :=
  { pid := 2, gameId := 1, name := "W", role := "player", accessToken := 12, cash := 0 }

/-- Fresh state for the encumbrance-bypass trace: no orders yet. -/
def stA0 : AppState :=
  { games := [gameA], participants := [xA, wA],
    holdings := [{ participantId := 2, playerName := "Bob", shares := 1 }],
    orders := [], transactions := [], nextOrderId := 1 }

/-- After X commits all 100 cash to a buy order (10 shares of Alice at 10). -/
def stA1 : AppState := (place_order stA0 11 "buy" "Alice" 10 10).1

/-- After W additionally offers its Bob share for 50. -/
def stA2 : AppState := (place_order stA1 12 "sell" "Bob" 50 1).1

/-- After X, whose cash is fully encumbered, buys W's share anyway. -/
def stA3 : AppState := (execute_order stA2 11 2 none).1

/-- Stale-order scenario: the owner of an open sell order holds no shares. -/
def stC3a : AppState :=
  { games := [gameA],
    participants :=
      [{ pid := 1, gameId := 1, name := "Own", role := "player", accessToken := 31, cash := 0 },
       { pid := 2, gameId := 1, name := "Acc", role := "player", accessToken := 32, cash := 100 }],
    holdings := [],
    orders := [{ oid := 1, gameId := 1, participantId := 1, orderType := "sell",
                 playerName := "Bob", price := 3, shares := 5, status := "open" }],
    transactions := [], nextOrderId := 2 }

/-- Acceptor-failure scenario: the acceptor of an open sell order has no cash. -/
def stC3b : AppState :=
  { games := [gameA],
    participants :=
      [{ pid := 1, gameId := 1, name := "Own", role := "player", accessToken := 31, cash := 0 },
       { pid := 2, gameId := 1, name := "Acc", role := "player", accessToken := 32, cash := 0 }],
    holdings := [{ participantId := 1, playerName := "Bob", shares := 5 }],
    orders := [{ oid := 1, gameId := 1, participantId := 1, orderType := "sell",
                 playerName := "Bob", price := 3, shares := 5, status := "open" }],
    transactions := [], nextOrderId := 2 }

/-- Partial-fill scenario (spec Scenario C): Y offers 5 Bob at 3, Z has 100 cash. -/
def stC6 : AppState :=
  { games := [gameA],
    participants :=
      [{ pid := 1, gameId := 1, name := "Y", role := "player", accessToken := 41, cash := 0 },
       { pid := 2, gameId := 1, name := "Z", role := "player", accessToken := 42, cash := 100 }],
    holdings := [{ participantId := 1, playerName := "Bob", shares := 5 }],
    orders := [{ oid := 1, gameId := 1, participantId := 1, orderType := "sell",
                 playerName := "Bob", price := 3, shares := 5, status := "open" }],
    transactions := [], nextOrderId := 2 }

/-- The Scenario B participant. -/
def yB : Participant :=
  { pid := 1, gameId := 1, name := "Y", role := "player", accessToken := 21, cash := 0 }

/-- Scenario B state: Y holds 5 Bob shares and nothing is on the book. -/
def stB0 : AppState :=
  { games := [gameA],
    participants :=
      [{ pid := 1, gameId := 1, name := "Y", role := "player", accessToken := 21, cash := 0 }],
    holdings := [{ participantId := 1, playerName := "Bob", shares := 5 }],
    orders := [], transactions := [], nextOrderId := 1 }

/-- Scenario B after the first (full-holding) sell order. -/
def stB1 : AppState := (place_order stB0 21 "sell" "Bob" 3 5).1

/-- Scenario D state: P1 holds 3 Alice + 4 Bob and 50 cash; an admin exists. -/
def stD : AppState :=
  { games := [gameA],
    participants :=
      [{ pid := 1, gameId := 1, name := "P1", role := "player", accessToken := 43, cash := 50 },
       { pid := 2, gameId := 1, name := "Admin", role := "admin", accessToken := 44, cash := 0 }],
    holdings := [{ participantId := 1, playerName := "Alice", shares := 3 },
                 { participantId := 1, playerName := "Bob", shares := 4 }],
    orders := [], transactions := [], nextOrderId := 1 }

/-- Cross-game scenario: A lives in active game 1; B and B's open sell order
live in game 2, which has already ended. -/
def stE : AppState :=
  { games :=
      [{ gid := 1, status := "active", scoringMode := "final_points", includeCash := true,
         playerNames := ["Alice", "Bob"], positionValues := [], finalScores := none,
         winnerId := none },
       { gid := 2, status := "ended", scoringMode := "final_points", includeCash := true,
         playerNames := ["Alice", "Bob"], positionValues := [], finalScores := none,
         winnerId := none }],
    participants :=
      [{ pid := 1, gameId := 1, name := "A", role := "player", accessToken := 51, cash := 10 },
       { pid := 2, gameId := 2, name := "B", role := "player", accessToken := 52, cash := 0 }],
    holdings := [{ participantId := 2, playerName := "Bob", shares := 1 }],
    orders := [{ oid := 1, gameId := 2, participantId := 2, orderType := "sell",
                 playerName := "Bob", price := 5, shares := 1, status := "open" }],
    transactions := [], nextOrderId := 2 }

/-- Unknown-entity scenario: the game's only tradeable entity is Alice. -/
def stF : AppState :=
  { games :=
      [{ gid := 1, status := "active", scoringMode := "outright_winner", includeCash := false,
         playerNames := ["Alice"], positionValues := [], finalScores := none,
         winnerId := none }],
    participants :=
      [{ pid := 1, gameId := 1, name := "X", role := "player", accessToken := 61, cash := 100 }],
    holdings := [], orders := [], transactions := [], nextOrderId := 1 }

/-- The scores supplied at end-game time in Scenario D. -/
def scoresD : List (String × ℚ) := [("Alice", 10), ("Bob", 2)]

/-- The Scenario D participant record. -/
def pD : Participant :=
  { pid := 1, gameId := 1, name := "P1", role := "player", accessToken := 43, cash := 50 }

/-- The committed state after executing 3 of the 5 shares of `stC6`'s order. -/
def stC6r : AppState :=
  { games := [gameA],
    participants :=
      [{ pid := 1, gameId := 1, name := "Y", role := "player", accessToken := 41, cash := 9 },
       { pid := 2, gameId := 1, name := "Z", role := "player", accessToken := 42, cash := 91 }],
    holdings := [{ participantId := 1, playerName := "Bob", shares := 2 },
                 { participantId := 2, playerName := "Bob", shares := 3 }],
    orders := [{ oid := 1, gameId := 1, participantId := 1, orderType := "sell",
                 playerName := "Bob", price := 3, shares := 2, status := "open" }],
    transactions := [{ gameId := 1, buyerId := 2, sellerId := 1, playerName := "Bob",
                       price := 3, shares := 3 }],
    nextOrderId := 2 }

/-- The seller (order owner) of `stC6`. -/
def yC6 : Participant :=
  { pid := 1, gameId := 1, name := "Y", role := "player", accessToken := 41, cash := 0 }

/-- The buyer (acceptor) of `stC6`. -/
def zC6 : Participant :=
  { pid := 2, gameId := 1, name := "Z", role := "player", accessToken := 42, cash := 100 }

/-- The resting sell order of `stC6`. -/
def oC6 : Order :=
  { oid := 1, gameId := 1, participantId := 1, orderType := "sell",
    playerName := "Bob", price := 3, shares := 5, status := "open" }

/-- The order owner of `stC3a` and `stC3b`. -/
def ownC3 : Participant :=
  { pid := 1, gameId := 1, name := "Own", role := "player", accessToken := 31, cash := 0 }

/-- The acceptor of `stC3a` (100 cash). -/
def accC3a : Participant :=
  { pid := 2, gameId := 1, name := "Acc", role := "player", accessToken := 32, cash := 100 }

/-- The acceptor of `stC3b` (no cash). -/
def accC3b : Participant :=
  { pid := 2, gameId := 1, name := "Acc", role := "player", accessToken := 32, cash := 0 }

/-- The resting sell order of `stC3a` and `stC3b`. -/
def ordC3 : Order :=
  { oid := 1, gameId := 1, participantId := 1, orderType := "sell",
    playerName := "Bob", price := 3, shares := 5, status := "open" }

/-!  Theorems.  First some shared inversion and bookkeeping lemmas. -/

/-- A failing `execute_order` either leaves the state untouched or (in the
stale-order branches) only cancels the target order. -/
theorem execute_order_error_state (s : AppState) (t oid : Nat) (q : Option ℤ)
    (s2 : AppState) (e : String)
    (h : execute_order s t oid q = (s2, Except.error e)) :
    s2 = s ∨ s2 = cancelOrderIn s oid := by
  unfold execute_order at h
  repeat' split at h
  all_goals injection h with h1 h2
  all_goals first
    | exact Or.inl h1.symm
    | exact Or.inr h1.symm
    | exact Except.noConfusion h2

/-- Inversion for a successful `execute_order`: every guard of the handler
passed, and the committed state is the corresponding `settle`. -/
theorem execute_order_ok (s : AppState) (t oid : Nat) (q : Option ℤ) (s2 : AppState)
    (h : execute_order s t oid q = (s2, Except.ok ())) :
    ∃ participant order game orderCreator,
      findParticipantByToken s t = some participant ∧
      findOrder s oid = some order ∧
      order.status = "open" ∧
      order.participantId ≠ participant.pid ∧
      findGame s participant.gameId = some game ∧
      game.status ≠ "ended" ∧
      0 < q.getD order.shares ∧
      q.getD order.shares ≤ order.shares ∧
      findParticipant s order.participantId = some orderCreator ∧
      ((order.orderType = "sell" ∧
          order.price * ((q.getD order.shares : ℤ) : ℚ) ≤ participant.cash ∧
          q.getD order.shares ≤ rawShares s orderCreator.pid order.playerName ∧
          s2 = settle s game.gid order participant.pid orderCreator.pid
            (q.getD order.shares)) ∨
       (order.orderType ≠ "sell" ∧
          q.getD order.shares ≤ rawShares s participant.pid order.playerName ∧
          order.price * ((q.getD order.shares : ℤ) : ℚ) ≤ orderCreator.cash ∧
          s2 = settle s game.gid order orderCreator.pid participant.pid
            (q.getD order.shares))) := by
  unfold execute_order at h
  repeat' split at h
  all_goals injection h with h1 h2
  all_goals try exact Except.noConfusion h2
  · rename_i xP participant hp xO order ho hopen hself xG game hg hend hq1 hq2 xC creator hcr hty hc1 hc2
    exact ⟨participant, order, game, creator, hp, ho, not_not.mp hopen, hself, hg, hend,
      not_le.mp hq1, not_lt.mp hq2, hcr,
      Or.inl ⟨hty, not_lt.mp hc1, not_lt.mp hc2, h1.symm⟩⟩
  · rename_i xP participant hp xO order ho hopen hself xG game hg hend hq1 hq2 xC creator hcr hty hc1 hc2
    exact ⟨participant, order, game, creator, hp, ho, not_not.mp hopen, hself, hg, hend,
      not_le.mp hq1, not_lt.mp hq2, hcr,
      Or.inr ⟨hty, not_lt.mp hc1, not_lt.mp hc2, h1.symm⟩⟩

/-- `place_order` never changes the participant or holding tables. -/
theorem place_order_tables (s : AppState) (t : Nat) (ot pn : String) (pr : ℚ) (sh : ℤ) :
    (place_order s t ot pn pr sh).1.participants = s.participants ∧
    (place_order s t ot pn pr sh).1.holdings = s.holdings := by
  unfold place_order insertOrder
  repeat' split
  all_goals exact ⟨rfl, rfl⟩

/-- `cancelOrderIn` only rewrites the order table. -/
theorem cancelOrderIn_tables (s : AppState) (oid : Nat) :
    (cancelOrderIn s oid).participants = s.participants ∧
    (cancelOrderIn s oid).holdings = s.holdings :=
  ⟨rfl, rfl⟩

/-- `cancel_order` never changes the participant or holding tables. -/
theorem cancel_order_tables (s : AppState) (t oid : Nat) :
    (cancel_order s t oid).1.participants = s.participants ∧
    (cancel_order s t oid).1.holdings = s.holdings := by
  unfold cancel_order cancelOrderIn
  repeat' split
  all_goals exact ⟨rfl, rfl⟩

/-- `cancel_all_orders` never changes the participant or holding tables. -/
theorem cancel_all_orders_tables (s : AppState) (t : Nat) (ot : Option String) :
    (cancel_all_orders s t ot).1.participants = s.participants ∧
    (cancel_all_orders s t ot).1.holdings = s.holdings := by
  unfold cancel_all_orders
  repeat' split
  all_goals exact ⟨rfl, rfl⟩

/-- `end_game` never changes the participant or holding tables. -/
theorem end_game_tables (s : AppState) (t : Nat) (wp : Option String)
    (fs : List (String × ℚ)) (fp : List (String × String)) :
    (end_game s t wp fs fp).1.participants = s.participants ∧
    (end_game s t wp fs fp).1.holdings = s.holdings := by
  unfold end_game
  repeat' split
  all_goals exact ⟨rfl, rfl⟩

/-- Rewriting the order with id `oid` through a row update that preserves
ids: the first matching row is found and updated. -/
theorem find_oid_map (l : List Order) (oid : Nat) (o : Order) (g : Order → Order)
    (hg : ∀ x, (g x).oid = x.oid)
    (h : l.find? (fun x => x.oid == oid) = some o) :
    (l.map (fun x => if x.oid = oid then g x else x)).find? (fun x => x.oid == oid)
      = some (g o) := by
  induction l with
  | nil => simp at h
  | cons a l ih =>
    by_cases ha : a.oid = oid
    · rw [List.find?_cons_of_pos _ (by simpa using ha)] at h
      injection h with h
      subst h
      simp only [List.map_cons, if_pos ha]
      rw [List.find?_cons_of_pos _ (by simpa using (hg a).trans ha)]
    · rw [List.find?_cons_of_neg _ (by simpa using ha)] at h
      simp only [List.map_cons, if_neg ha]
      rw [List.find?_cons_of_neg _ (by simpa using ha)]
      exact ih h

/-- Inversion for an accepted `place_order`: the price/quantity and
encumbrance checks passed against the pre-insertion state, and the
committed state is the input state plus the one new open order. -/
theorem place_order_ok (s : AppState) (t : Nat) (ot pn : String) (pr : ℚ) (sh : ℤ)
    (s2 : AppState) (k : Nat)
    (h : place_order s t ot pn pr sh = (s2, Except.ok k)) :
    ∃ participant game,
      findParticipantByToken s t = some participant ∧
      findGame s participant.gameId = some game ∧
      0 < pr ∧ 0 < sh ∧
      ((ot = "sell" ∧ sh ≤ availableShares s participant.pid pn) ∨
       (ot = "buy" ∧ pr * (sh : ℚ) ≤ availableCash s participant)) ∧
      s2 = { s with
             orders := s.orders ++
               [{ oid := s.nextOrderId, gameId := game.gid,
                  participantId := participant.pid, orderType := ot, playerName := pn,
                  price := pr, shares := sh, status := "open" }],
             nextOrderId := s.nextOrderId + 1 } := by
  unfold place_order insertOrder at h
  repeat' split at h
  all_goals injection h with h1 h2
  all_goals try exact Except.noConfusion h2
  · rename_i xP participant hp xG game hg hend hval hsell hlt
    subst hsell
    obtain ⟨hpr, hsh⟩ := not_or.mp hval
    exact ⟨participant, game, hp, hg, not_le.mp hpr, not_le.mp hsh,
      Or.inl ⟨rfl, not_lt.mp hlt⟩, h1.symm⟩
  · rename_i xP participant hp xG game hg hend hval hnotsell hbuy hlt
    subst hbuy
    obtain ⟨hpr, hsh⟩ := not_or.mp hval
    exact ⟨participant, game, hp, hg, not_le.mp hpr, not_le.mp hsh,
      Or.inr ⟨rfl, not_lt.mp hlt⟩, h1.symm⟩

/-- Appending one order adds its cash commitment (when it is an open buy
order of the given participant) to `committedCash`. -/
theorem committedCash_orders_append (s s2 : AppState) (o : Order) (pid : Nat)
    (h : s2.orders = s.orders ++ [o]) :
    committedCash s2 pid =
      committedCash s pid +
        (if o.participantId = pid ∧ o.status = "open" ∧ o.orderType = "buy"
         then o.price * (o.shares : ℚ) else 0) := by
  unfold committedCash
  rw [h]
  simp only [List.filter_append, List.map_append, List.sum_append]
  congr 1
  by_cases hb : o.participantId = pid ∧ o.status = "open" ∧ o.orderType = "buy"
  · obtain ⟨h1, h2, h3⟩ := hb
    rw [if_pos ⟨h1, h2, h3⟩]
    simp [List.filter_cons, h1, h2, h3]
  · rw [if_neg hb]
    have hfalse : (o.participantId == pid && o.status == "open" && o.orderType == "buy") = false := by
      by_contra hcon
      rw [Bool.not_eq_false] at hcon
      simp only [Bool.and_eq_true, beq_iff_eq] at hcon
      exact hb ⟨hcon.1.1, hcon.1.2, hcon.2⟩
    simp [List.filter_cons, hfalse]

/-- Appending one order adds its share commitment (when it is an open sell
order of the given participant for the given entity) to `committedShares`. -/
theorem committedShares_orders_append (s s2 : AppState) (o : Order) (pid : Nat) (e : String)
    (h : s2.orders = s.orders ++ [o]) :
    committedShares s2 pid e =
      committedShares s pid e +
        (if o.participantId = pid ∧ o.playerName = e ∧ o.orderType = "sell" ∧ o.status = "open"
         then o.shares else 0) := by
  unfold committedShares
  rw [h]
  simp only [List.filter_append, List.map_append, List.sum_append]
  congr 1
  by_cases hb : o.participantId = pid ∧ o.playerName = e ∧ o.orderType = "sell" ∧ o.status = "open"
  · obtain ⟨h1, h2, h3, h4⟩ := hb
    rw [if_pos ⟨h1, h2, h3, h4⟩]
    simp [List.filter_cons, h1, h2, h3, h4]
  · rw [if_neg hb]
    have hfalse : (o.participantId == pid && o.playerName == e && o.orderType == "sell" && o.status == "open") = false := by
      by_contra hcon
      rw [Bool.not_eq_false] at hcon
      simp only [Bool.and_eq_true, beq_iff_eq] at hcon
      exact hb ⟨hcon.1.1.1, hcon.1.1.2, hcon.1.2, hcon.2⟩
    simp [List.filter_cons, hfalse]

/-- `rawShares` only reads the holding table. -/
theorem rawShares_holdings_eq (s s2 : AppState) (pid : Nat) (e : String)
    (h : s2.holdings = s.holdings) :
    rawShares s2 pid e = rawShares s pid e := by
  unfold rawShares findHolding
  rw [h]

/-- C1 (counterexample): in `stA2`, reached from `stA0` by two accepted
placements, buyer X's available cash is 0 (all 100 cash is encumbered by
X's own open buy order), strictly less than the price×qty = 50 of W's
resting sell order; yet `execute_order` accepts the trade.  So execution
does not re-validate against the availableCash query. -/
theorem execute_skips_encumbrance_check :
    (place_order stA0 11 "buy" "Alice" 10 10).2 = Except.ok 1 ∧
    (place_order stA1 12 "sell" "Bob" 50 1).2 = Except.ok 2 ∧
    findParticipantByToken stA2 11 = some xA ∧
    findOrder stA2 2 = some
      { oid := 2, gameId := 1, participantId := 2, orderType := "sell",
        playerName := "Bob", price := 50, shares := 1, status := "open" } ∧
    availableCash stA2 xA < 50 * 1 ∧
    (execute_order stA2 11 2 none).2 = Except.ok () := by
  decide

/-- C1 (amended): ExecuteOrder does re-validate resources at execution
time, but against the raw balances only: a successful call implies the
seller had at least qty raw `Holding.shares` and the buyer at least
price×qty raw cash.  (The counterexample shows the availableCash /
availableShares queries, net of other open orders, are not consulted.) -/
theorem execute_validates_raw_balances (s : AppState) (t oid : Nat) (q : Option ℤ)
    (s2 : AppState) (participant : Participant) (order : Order) (orderCreator : Participant)
    (hp : findParticipantByToken s t = some participant)
    (ho : findOrder s oid = some order)
    (hcr : findParticipant s order.participantId = some orderCreator)
    (hok : execute_order s t oid q = (s2, Except.ok ())) :
    (order.orderType = "sell" →
       order.price * ((q.getD order.shares : ℤ) : ℚ) ≤ participant.cash ∧
       q.getD order.shares ≤ rawShares s orderCreator.pid order.playerName) ∧
    (order.orderType ≠ "sell" →
       q.getD order.shares ≤ rawShares s participant.pid order.playerName ∧
       order.price * ((q.getD order.shares : ℤ) : ℚ) ≤ orderCreator.cash) := by
  obtain ⟨p2, o2, g2, c2, hp2, ho2, _, _, _, _, _, _, hcr2, hcase⟩ :=
    execute_order_ok s t oid q s2 hok
  rw [hp] at hp2
  injection hp2 with hp2
  subst hp2
  rw [ho] at ho2
  injection ho2 with ho2
  subst ho2
  rw [hcr] at hcr2
  injection hcr2 with hcr2
  subst hcr2
  rcases hcase with ⟨hty, hcash, hsh, _⟩ | ⟨hty, hsh, hcash, _⟩
  · exact ⟨fun _ => ⟨hcash, hsh⟩, fun hne => absurd hty hne⟩
  · exact ⟨fun he => absurd he hty, fun _ => ⟨hsh, hcash⟩⟩

/-- Witness for `execute_validates_raw_balances` at the concrete partial
fill of `stC6`. -/
theorem execute_validates_raw_balances_witness :
    oC6.price * (((some (3 : ℤ)).getD oC6.shares : ℤ) : ℚ) ≤ zC6.cash ∧
    (some (3 : ℤ)).getD oC6.shares ≤ rawShares stC6 yC6.pid oC6.playerName :=
  (execute_validates_raw_balances stC6 42 1 (some 3) stC6r zC6 oC6 yC6
    (by decide) (by decide) (by decide) (by decide)).1 rfl

/-- C2 (counterexample): a trace of three committed operations from `stA0`
after which participant 1 still has an open buy order but
availableCash(participant 1) = -50 < 0. -/
theorem execute_breaks_avail_invariant :
    (place_order stA0 11 "buy" "Alice" 10 10).2 = Except.ok 1 ∧
    (place_order stA1 12 "sell" "Bob" 50 1).2 = Except.ok 2 ∧
    (execute_order stA2 11 2 none).2 = Except.ok () ∧
    (stA3.orders.filter (fun o => o.participantId == 1 && o.status == "open")).length = 1 ∧
    availableCashOf stA3 1 < 0 := by
  decide

/-- C2 (amended): an accepted PlaceOrder preserves nonnegativity of
availableCash and availableShares for every participant: the placement
check is evaluated against pre-insertion availability, so placement is
never accepted when it would drive either quantity negative.  (The
counterexample shows ExecuteOrder does not preserve this invariant.) -/
theorem place_preserves_avail_nonneg (s : AppState) (t : Nat) (ot pn : String)
    (pr : ℚ) (sh : ℤ) (s2 : AppState) (k : Nat)
    (hnd : (s.participants.map (fun p => p.pid)).Nodup)
    (h : place_order s t ot pn pr sh = (s2, Except.ok k))
    (hav : availNonneg s) : availNonneg s2 := by
  obtain ⟨participant, game, hp, hg, hpr, hsh, hcase, hs2⟩ :=
    place_order_ok s t ot pn pr sh s2 k h
  have hpmem : participant ∈ s.participants := List.mem_of_find?_eq_some hp
  intro p hpm
  have hpm0 : p ∈ s.participants := by rw [hs2] at hpm; exact hpm
  obtain ⟨hc0, hs0⟩ := hav p hpm0
  have hords : s2.orders = s.orders ++
      [{ oid := s.nextOrderId, gameId := game.gid, participantId := participant.pid,
         orderType := ot, playerName := pn, price := pr, shares := sh,
         status := "open" }] := by rw [hs2]
  have hholds : s2.holdings = s.holdings := by rw [hs2]
  rcases hcase with ⟨hot, hbound⟩ | ⟨hot, hbound⟩
  · -- a sell order encumbers no cash and exactly `sh` shares of `pn`
    constructor
    · unfold availableCash
      rw [committedCash_orders_append s s2 _ p.pid hords, if_neg (by simp [hot])]
      unfold availableCash at hc0
      linarith [hc0]
    · intro e
      unfold availableShares
      rw [committedShares_orders_append s s2 _ p.pid e hords,
          rawShares_holdings_eq s s2 p.pid e hholds]
      by_cases hcond : participant.pid = p.pid ∧ pn = e ∧ ot = "sell" ∧ "open" = "open"
      · rw [if_pos hcond]
        obtain ⟨he1, he2, -, -⟩ := hcond
        have := hbound
        unfold availableShares at this
        rw [he1, he2] at this
        dsimp only
        omega
      · rw [if_neg hcond]
        have := hs0 e
        unfold availableShares at this
        omega
  · -- a buy order encumbers no shares and exactly `pr * sh` cash
    constructor
    · unfold availableCash
      rw [committedCash_orders_append s s2 _ p.pid hords]
      by_cases hcond : participant.pid = p.pid ∧ "open" = "open" ∧ ot = "buy"
      · rw [if_pos hcond]
        have hpeq : p = participant :=
          List.inj_on_of_nodup_map hnd hpm0 hpmem hcond.1.symm
        subst hpeq
        unfold availableCash at hbound
        dsimp only
        linarith [hbound]
      · rw [if_neg hcond]
        unfold availableCash at hc0
        linarith [hc0]
    · intro e
      unfold availableShares
      rw [committedShares_orders_append s s2 _ p.pid e hords,
          rawShares_holdings_eq s s2 p.pid e hholds, if_neg (by simp [hot])]
      have := hs0 e
      unfold availableShares at this
      omega

/-- Witness for `place_preserves_avail_nonneg`: Scenario B's first
placement preserves the invariant on `stB0`. -/
theorem place_preserves_avail_nonneg_witness : availNonneg stB1 := by
  apply place_preserves_avail_nonneg stB0 21 "sell" "Bob" 3 5 stB1 1 (by decide) (by decide)
  intro p hp
  have hp2 : p = yB := by simpa [stB0, yB] using hp
  subst hp2
  refine ⟨by decide, fun e => ?_⟩
  by_cases he : e = "Bob"
  · subst he; decide
  · unfold availableShares committedShares rawShares findHolding
    have hne : (("Bob" : String) == e) = false := by
      simp only [beq_eq_false_iff_ne, ne_eq]
      exact fun hcon => he hcon.symm
    simp [stB0, hne]

/-- C3: under the handler's preconditions (order found and open, not the
acceptor's own, acceptor's game active, quantity valid), if the acceptor's
resource check fails the call fails with the insufficient-resources error
and the state is unchanged (the order stays open and untouched); if the
acceptor's check passes and the order owner's resource check fails, the
call fails with the stale-order error and the committed state is exactly
the input state with that order's status set to cancelled. -/
theorem execute_failure_semantics (s : AppState) (t oid : Nat) (q : Option ℤ)
    (participant : Participant) (order : Order) (game : Game) (orderCreator : Participant)
    (hp : findParticipantByToken s t = some participant)
    (ho : findOrder s oid = some order)
    (hopen : order.status = "open")
    (hself : order.participantId ≠ participant.pid)
    (hg : findGame s participant.gameId = some game)
    (hend : game.status ≠ "ended")
    (hq1 : 0 < q.getD order.shares)
    (hq2 : q.getD order.shares ≤ order.shares)
    (hcr : findParticipant s order.participantId = some orderCreator) :
    (order.orderType = "sell" →
       (participant.cash < order.price * ((q.getD order.shares : ℤ) : ℚ) →
          execute_order s t oid q = (s, Except.error "Not enough cash")) ∧
       (order.price * ((q.getD order.shares : ℤ) : ℚ) ≤ participant.cash →
        rawShares s orderCreator.pid order.playerName < q.getD order.shares →
          execute_order s t oid q =
            (cancelOrderIn s oid, Except.error "Seller no longer has shares"))) ∧
    (order.orderType ≠ "sell" →
       (rawShares s participant.pid order.playerName < q.getD order.shares →
          execute_order s t oid q = (s, Except.error "Not enough shares")) ∧
       (q.getD order.shares ≤ rawShares s participant.pid order.playerName →
        orderCreator.cash < order.price * ((q.getD order.shares : ℤ) : ℚ) →
          execute_order s t oid q =
            (cancelOrderIn s oid, Except.error "Buyer no longer has cash"))) ∧
    findOrder (cancelOrderIn s oid) oid = some { order with status := "cancelled" } := by
  refine ⟨fun hty => ⟨fun h1 => ?_, fun h1 h2 => ?_⟩,
          fun hty => ⟨fun h1 => ?_, fun h1 h2 => ?_⟩, ?_⟩
  · unfold execute_order
    simp only [hp, ho, hg, hcr]
    simp [hopen, hself, hend, not_le.2 hq1, not_lt.2 hq2, hty, h1]
  · unfold execute_order
    simp only [hp, ho, hg, hcr]
    simp [hopen, hself, hend, not_le.2 hq1, not_lt.2 hq2, hty, not_lt.2 h1, h2]
  · unfold execute_order
    simp only [hp, ho, hg, hcr]
    simp [hopen, hself, hend, not_le.2 hq1, not_lt.2 hq2, hty, h1]
  · unfold execute_order
    simp only [hp, ho, hg, hcr]
    simp [hopen, hself, hend, not_le.2 hq1, not_lt.2 hq2, hty, not_lt.2 h1, h2]
  · exact find_oid_map s.orders oid order (fun x => { x with status := "cancelled" })
      (fun x => rfl) ho

/-- Witness for `execute_failure_semantics`: the stale-order branch fires
on `stC3a` (owner without shares) and the acceptor-failure branch on
`stC3b` (acceptor without cash). -/
theorem execute_failure_semantics_witness :
    execute_order stC3a 32 1 none =
      (cancelOrderIn stC3a 1, Except.error "Seller no longer has shares") ∧
    execute_order stC3b 32 1 none = (stC3b, Except.error "Not enough cash") :=
  ⟨((execute_failure_semantics stC3a 32 1 none accC3a ordC3 gameA ownC3
      (by decide) (by decide) (by decide) (by decide) (by decide) (by decide)
      (by decide) (by decide) (by decide)).1 rfl).2 (by decide) (by decide),
   ((execute_failure_semantics stC3b 32 1 none accC3b ordC3 gameA ownC3
      (by decide) (by decide) (by decide) (by decide) (by decide) (by decide)
      (by decide) (by decide) (by decide)).1 rfl).1 (by decide)⟩

/-- C8 (counterexample): in Scenario D (3 Alice shares, 4 Bob shares,
50 cash, scores Alice ↦ 10 and Bob ↦ 2, include_cash set) the engine
values the participant at 3×10 + 4×2 + 50 = 88, not 108. -/
theorem scenario_d_value_is_88 :
    finalPointsValue stD gameA scoresD pD = 88 ∧
    finalPointsValue stD gameA scoresD pD ≠ 108 ∧
    (end_game stD 44 none scoresD []).2 = Except.ok (some "P1") := by
  decide

/-- A left fold that only accumulates additions equals the initial value
plus the sum of the mapped list. -/
theorem foldl_add_sum {α : Type} (f : α → ℚ) (l : List α) (a : ℚ) :
    l.foldl (fun total x => total + f x) a = a + (l.map f).sum := by
  induction l generalizing a with
  | nil => simp
  | cons x l ih =>
    simp only [List.foldl_cons, List.map_cons, List.sum_cons, ih]
    ring

/-- C8 (amended): under final_points the engine values a player as the sum
over their Holdings of shares × score (score 0 when the entity has no
supplied score) plus cash iff include_cash; the Scenario D participant is
therefore valued at 3×10 + 4×2 + 50 = 88 and wins the game. -/
theorem final_points_value_formula :
    (∀ (s : AppState) (g : Game) (scores : List (String × ℚ)) (p : Participant),
       finalPointsValue s g scores p =
         ((participantHoldings s p.pid).map
            (fun h => (h.shares : ℚ) * lookupScore scores h.playerName)).sum +
         (if g.includeCash then p.cash else 0)) ∧
    finalPointsValue stD gameA scoresD pD = 88 ∧
    (end_game stD 44 none scoresD []).2 = Except.ok (some "P1") := by
  refine ⟨fun s g scores p => ?_, by decide, by decide⟩
  simp only [finalPointsValue]
  rw [foldl_add_sum]
  by_cases hc : g.includeCash <;> simp [hc]

/-- C7: PlaceOrder evaluates the encumbrance check against the
pre-insertion state, so the new order does not count against its own
availability check: with valid price/quantity in an active game, a sell
(resp. buy) order is rejected with the insufficient-resources error and
nothing inserted exactly when the requested quantity (resp. price×qty)
exceeds availableShares (resp. availableCash) computed on the state
before insertion. -/
theorem place_sell_checks_preinsertion (s : AppState) (t : Nat) (pn : String)
    (pr : ℚ) (sh : ℤ) (participant : Participant) (game : Game)
    (hp : findParticipantByToken s t = some participant)
    (hg : findGame s participant.gameId = some game)
    (hend : game.status ≠ "ended")
    (hpr : 0 < pr) (hsh : 0 < sh) :
    (availableShares s participant.pid pn < sh →
       place_order s t "sell" pn pr sh = (s, Except.error "Not enough shares")) ∧
    (sh ≤ availableShares s participant.pid pn →
       place_order s t "sell" pn pr sh =
         ({ s with
            orders := s.orders ++
              [{ oid := s.nextOrderId, gameId := game.gid,
                 participantId := participant.pid, orderType := "sell",
                 playerName := pn, price := pr, shares := sh, status := "open" }],
            nextOrderId := s.nextOrderId + 1 }, Except.ok s.nextOrderId)) ∧
    (availableCash s participant < pr * (sh : ℚ) →
       place_order s t "buy" pn pr sh = (s, Except.error "Not enough cash")) ∧
    (pr * (sh : ℚ) ≤ availableCash s participant →
       place_order s t "buy" pn pr sh =
         ({ s with
            orders := s.orders ++
              [{ oid := s.nextOrderId, gameId := game.gid,
                 participantId := participant.pid, orderType := "buy",
                 playerName := pn, price := pr, shares := sh, status := "open" }],
            nextOrderId := s.nextOrderId + 1 }, Except.ok s.nextOrderId)) := by
  refine ⟨fun hlt => ?_, fun hge => ?_, fun hlt => ?_, fun hge => ?_⟩
  · unfold place_order
    simp only [hp, hg]
    simp [hend, not_le.2 hpr, not_le.2 hsh, hlt]
  · unfold place_order insertOrder
    simp only [hp, hg]
    simp [hend, not_le.2 hpr, not_le.2 hsh, not_lt.2 hge]
  · unfold place_order
    simp only [hp, hg]
    simp [hend, not_le.2 hpr, not_le.2 hsh, hlt]
  · unfold place_order insertOrder
    simp only [hp, hg]
    simp [hend, not_le.2 hpr, not_le.2 hsh, not_lt.2 hge]

/-- Witness for `place_sell_checks_preinsertion`: Scenario B.  Y holds 5
Bob shares; the first sell order for all 5 is accepted (so the new order
did not count against itself), availableShares drops to 0, and a second
sell order for 1 share is rejected with no insertion. -/
theorem place_sell_checks_preinsertion_witness :
    place_order stB0 21 "sell" "Bob" 3 5 =
      ({ stB0 with
         orders := stB0.orders ++
           [{ oid := stB0.nextOrderId, gameId := gameA.gid, participantId := yB.pid,
              orderType := "sell", playerName := "Bob", price := 3, shares := 5,
              status := "open" }],
         nextOrderId := stB0.nextOrderId + 1 }, Except.ok stB0.nextOrderId) ∧
    availableShares stB1 1 "Bob" = 0 ∧
    place_order stB1 21 "sell" "Bob" 3 1 = (stB1, Except.error "Not enough shares") :=
  ⟨(place_sell_checks_preinsertion stB0 21 "Bob" 3 5 yB gameA (by decide) (by decide)
      (by decide) (by decide) (by decide)).2.1 (by decide),
   by decide,
   (place_sell_checks_preinsertion stB1 21 "Bob" 3 1 yB gameA (by decide) (by decide)
      (by decide) (by decide) (by decide)).1 (by decide)⟩

/-- C9: with two games, participant A of active game 1 successfully
executes the open sell order that belongs to game 2 (looked up by id
alone) although game 2 has already ended, and cash and shares settle
across the game boundary. -/
theorem execute_crosses_game_boundary :
    (∀ o ∈ stE.orders, o.gameId = 2) ∧
    findParticipantByToken stE 51 = some
      { pid := 1, gameId := 1, name := "A", role := "player", accessToken := 51, cash := 10 } ∧
    (findGame stE 2).map Game.status = some "ended" ∧
    (execute_order stE 51 1 none).2 = Except.ok () ∧
    findParticipant (execute_order stE 51 1 none).1 1 = some
      { pid := 1, gameId := 1, name := "A", role := "player", accessToken := 51, cash := 5 } ∧
    findParticipant (execute_order stE 51 1 none).1 2 = some
      { pid := 2, gameId := 2, name := "B", role := "player", accessToken := 52, cash := 5 } ∧
    rawShares (execute_order stE 51 1 none).1 1 "Bob" = 1 := by
  decide

/-- C10: the entity name "Zeta" is not among the game's tradeable entities,
yet a buy order for it with positive price and quantity and sufficient
available cash is accepted and inserted with status open. -/
theorem place_accepts_unknown_entity :
    (∀ g ∈ stF.games, "Zeta" ∉ g.playerNames) ∧
    (place_order stF 61 "buy" "Zeta" 5 2).2 = Except.ok 1 ∧
    findOrder (place_order stF 61 "buy" "Zeta" 5 2).1 1 = some
      { oid := 1, gameId := 1, participantId := 1, orderType := "buy",
        playerName := "Zeta", price := 5, shares := 2, status := "open" } := by
  decide

/-- A participant found by id has that id. -/
theorem findParticipant_pid (s : AppState) (pid : Nat) (p : Participant)
    (h : findParticipant s pid = some p) : p.pid = pid := by
  unfold findParticipant at h
  have := List.find?_some h
  simpa using this

/-- An order found by id has that id. -/
theorem findOrder_oid (s : AppState) (oid : Nat) (o : Order)
    (h : findOrder s oid = some o) : o.oid = oid := by
  unfold findOrder at h
  have := List.find?_some h
  simpa using this

/-- A participant found by token is a row of the table. -/
theorem findParticipantByToken_mem (s : AppState) (t : Nat) (p : Participant)
    (h : findParticipantByToken s t = some p) : p ∈ s.participants :=
  List.mem_of_find?_eq_some h

/-- A participant found by id is a row of the table. -/
theorem findParticipant_mem (s : AppState) (pid : Nat) (p : Participant)
    (h : findParticipant s pid = some p) : p ∈ s.participants :=
  List.mem_of_find?_eq_some h

/-- A positive raw share count comes from an actual Holding row. -/
theorem rawShares_pos_find (s : AppState) (pid : Nat) (e : String)
    (h : 0 < rawShares s pid e) :
    ∃ h0, findHolding s pid e = some h0 ∧ h0.shares = rawShares s pid e ∧
      h0 ∈ s.holdings ∧ h0.participantId = pid ∧ h0.playerName = e := by
  unfold rawShares at h ⊢
  rcases hf : findHolding s pid e with _ | h0
  · rw [hf] at h
    simp at h
  · have hmem : h0 ∈ s.holdings := List.mem_of_find?_eq_some hf
    have hpred := List.find?_some hf
    simp only [Bool.and_eq_true, beq_iff_eq] at hpred
    exact ⟨h0, rfl, rfl, hmem, hpred.1, hpred.2⟩

/-- Debiting the unique row with pid `i` lowers the cash total by `c`. -/
theorem sumCash_sub (ps : List Participant) (i : Nat) (c : ℚ) (p0 : Participant)
    (hnd : (ps.map (fun p => p.pid)).Nodup) (hp0 : p0 ∈ ps) (hpid : p0.pid = i) :
    ((ps.map (fun p => if p.pid = i then { p with cash := p.cash - c } else p)).map
        (fun p => p.cash)).sum = (ps.map (fun p => p.cash)).sum - c := by
  induction ps with
  | nil => cases hp0
  | cons a l ih =>
    simp only [List.map_cons, List.nodup_cons, List.sum_cons] at hnd ⊢
    obtain ⟨hna, hndl⟩ := hnd
    rcases List.mem_cons.mp hp0 with rfl | hp0l
    · rw [if_pos hpid]
      have hl : l.map (fun p => if p.pid = i then { p with cash := p.cash - c } else p) = l := by
        refine (List.map_congr_left fun x hx => ?_).trans (List.map_id l)
        have : x.pid ≠ i := fun he => hna (by
          rw [hpid]
          exact he ▸ List.mem_map_of_mem (fun p => p.pid) hx)
        simp [this]
      rw [hl]
      ring
    · have hane : a.pid ≠ i := by
        intro he
        apply hna
        rw [he, ← hpid]
        exact List.mem_map_of_mem (fun p => p.pid) hp0l
      rw [if_neg hane, ih hndl hp0l]
      ring

/-- Crediting the unique row with pid `i` raises the cash total by `c`. -/
theorem sumCash_add (ps : List Participant) (i : Nat) (c : ℚ) (p0 : Participant)
    (hnd : (ps.map (fun p => p.pid)).Nodup) (hp0 : p0 ∈ ps) (hpid : p0.pid = i) :
    ((ps.map (fun p => if p.pid = i then { p with cash := p.cash + c } else p)).map
        (fun p => p.cash)).sum = (ps.map (fun p => p.cash)).sum + c := by
  induction ps with
  | nil => cases hp0
  | cons a l ih =>
    simp only [List.map_cons, List.nodup_cons, List.sum_cons] at hnd ⊢
    obtain ⟨hna, hndl⟩ := hnd
    rcases List.mem_cons.mp hp0 with rfl | hp0l
    · rw [if_pos hpid]
      have hl : l.map (fun p => if p.pid = i then { p with cash := p.cash + c } else p) = l := by
        refine (List.map_congr_left fun x hx => ?_).trans (List.map_id l)
        have : x.pid ≠ i := fun he => hna (by
          rw [hpid]
          exact he ▸ List.mem_map_of_mem (fun p => p.pid) hx)
        simp [this]
      rw [hl]
      ring
    · have hane : a.pid ≠ i := by
        intro he
        apply hna
        rw [he, ← hpid]
        exact List.mem_map_of_mem (fun p => p.pid) hp0l
      rw [if_neg hane, ih hndl hp0l]
      ring

/-- Decrementing the unique Holding row keyed `(i, e)` lowers the share
total of entity `e` by `c`. -/
theorem entitySum_sub (hs : List Holding) (i : Nat) (e : String) (c : ℤ) (h0 : Holding)
    (hnd : (hs.map (fun h => (h.participantId, h.playerName))).Nodup)
    (hh0 : h0 ∈ hs) (hpid : h0.participantId = i) (hpn : h0.playerName = e) :
    (((hs.map (fun h => if h.participantId = i ∧ h.playerName = e
         then { h with shares := h.shares - c } else h)).filter
        (fun h => h.playerName == e)).map (fun h => h.shares)).sum
      = ((hs.filter (fun h => h.playerName == e)).map (fun h => h.shares)).sum - c := by
  induction hs with
  | nil => cases hh0
  | cons a l ih =>
    simp only [List.map_cons, List.nodup_cons] at hnd
    obtain ⟨hna, hndl⟩ := hnd
    rcases List.mem_cons.mp hh0 with rfl | hh0l
    · have hl : l.map (fun h => if h.participantId = i ∧ h.playerName = e
          then { h with shares := h.shares - c } else h) = l := by
        refine (List.map_congr_left fun x hx => ?_).trans (List.map_id l)
        have hxne : ¬(x.participantId = i ∧ x.playerName = e) := by
          rintro ⟨hx1, hx2⟩
          apply hna
          rw [hpid, hpn, ← hx1, ← hx2]
          exact List.mem_map_of_mem (fun h => (h.participantId, h.playerName)) hx
        simp [hxne]
      rw [List.map_cons, if_pos ⟨hpid, hpn⟩, hl, List.filter_cons, List.filter_cons]
      have hb1 : (({ h0 with shares := h0.shares - c } : Holding).playerName == e) = true := by
        simp [hpn]
      have hb2 : (h0.playerName == e) = true := by simp [hpn]
      simp only [hb1, hb2, if_true]
      simp only [List.map_cons, List.sum_cons]
      ring
    · have hane : ¬(a.participantId = i ∧ a.playerName = e) := by
        rintro ⟨ha1, ha2⟩
        apply hna
        rw [ha1, ha2, ← hpid, ← hpn]
        exact List.mem_map_of_mem (fun h => (h.participantId, h.playerName)) hh0l
      rw [List.map_cons, if_neg hane, List.filter_cons, List.filter_cons]
      by_cases hae : (a.playerName == e) = true
      · simp only [hae, if_true]
        simp only [List.map_cons, List.sum_cons]
        rw [ih hndl hh0l]
        ring
      · rw [Bool.not_eq_true] at hae
        simp only [hae, Bool.false_eq_true, if_false]
        exact ih hndl hh0l

/-- Incrementing the unique Holding row keyed `(i, e)` raises the share
total of entity `e` by `c`. -/
theorem entitySum_add (hs : List Holding) (i : Nat) (e : String) (c : ℤ) (h0 : Holding)
    (hnd : (hs.map (fun h => (h.participantId, h.playerName))).Nodup)
    (hh0 : h0 ∈ hs) (hpid : h0.participantId = i) (hpn : h0.playerName = e) :
    (((hs.map (fun h => if h.participantId = i ∧ h.playerName = e
         then { h with shares := h.shares + c } else h)).filter
        (fun h => h.playerName == e)).map (fun h => h.shares)).sum
      = ((hs.filter (fun h => h.playerName == e)).map (fun h => h.shares)).sum + c := by
  induction hs with
  | nil => cases hh0
  | cons a l ih =>
    simp only [List.map_cons, List.nodup_cons] at hnd
    obtain ⟨hna, hndl⟩ := hnd
    rcases List.mem_cons.mp hh0 with rfl | hh0l
    · have hl : l.map (fun h => if h.participantId = i ∧ h.playerName = e
          then { h with shares := h.shares + c } else h) = l := by
        refine (List.map_congr_left fun x hx => ?_).trans (List.map_id l)
        have hxne : ¬(x.participantId = i ∧ x.playerName = e) := by
          rintro ⟨hx1, hx2⟩
          apply hna
          rw [hpid, hpn, ← hx1, ← hx2]
          exact List.mem_map_of_mem (fun h => (h.participantId, h.playerName)) hx
        simp [hxne]
      rw [List.map_cons, if_pos ⟨hpid, hpn⟩, hl, List.filter_cons, List.filter_cons]
      have hb1 : (({ h0 with shares := h0.shares + c } : Holding).playerName == e) = true := by
        simp [hpn]
      have hb2 : (h0.playerName == e) = true := by simp [hpn]
      simp only [hb1, hb2, if_true]
      simp only [List.map_cons, List.sum_cons]
      ring
    · have hane : ¬(a.participantId = i ∧ a.playerName = e) := by
        rintro ⟨ha1, ha2⟩
        apply hna
        rw [ha1, ha2, ← hpid, ← hpn]
        exact List.mem_map_of_mem (fun h => (h.participantId, h.playerName)) hh0l
      rw [List.map_cons, if_neg hane, List.filter_cons, List.filter_cons]
      by_cases hae : (a.playerName == e) = true
      · simp only [hae, if_true]
        simp only [List.map_cons, List.sum_cons]
        rw [ih hndl hh0l]
        ring
      · rw [Bool.not_eq_true] at hae
        simp only [hae, Bool.false_eq_true, if_false]
        exact ih hndl hh0l

/-- Appending a Holding row of entity `e` adds its shares to the total of
`e`. -/
theorem entitySum_append (hs : List Holding) (h1 : Holding) (e : String)
    (he : h1.playerName = e) :
    (((hs ++ [h1]).filter (fun h => h.playerName == e)).map (fun h => h.shares)).sum
      = ((hs.filter (fun h => h.playerName == e)).map (fun h => h.shares)).sum
        + h1.shares := by
  simp [List.filter_append, List.filter_cons, he]

/-- The seller-side share update leaves every Holding key unchanged. -/
theorem seller_update_keys (hs : List Holding) (i : Nat) (e : String) (c : ℤ) :
    ((hs.map (fun h => if h.participantId = i ∧ h.playerName = e
        then { h with shares := h.shares - c } else h)).map
      (fun h => (h.participantId, h.playerName))) =
    hs.map (fun h => (h.participantId, h.playerName)) := by
  rw [List.map_map]
  apply List.map_congr_left
  intro a ha
  by_cases hc : a.participantId = i ∧ a.playerName = e <;> simp [hc]

/-- The buyer-side cash update leaves every participant id unchanged. -/
theorem cash_update_pids (ps : List Participant) (i : Nat) (c : ℚ) :
    ((ps.map (fun p => if p.pid = i then { p with cash := p.cash - c } else p)).map
      (fun p => p.pid)) = ps.map (fun p => p.pid) := by
  rw [List.map_map]
  apply List.map_congr_left
  intro a ha
  by_cases hc : a.pid = i <;> simp [hc]

/-- The participant, transaction and order tables produced by `settle`. -/
theorem settle_fields (s : AppState) (gid : Nat) (order : Order) (b sl : Nat) (qty : ℤ) :
    (settle s gid order b sl qty).participants =
      ((s.participants.map (fun p =>
          if p.pid = b then { p with cash := p.cash - order.price * (qty : ℚ) } else p)).map
        (fun p => if p.pid = sl then { p with cash := p.cash + order.price * (qty : ℚ) } else p)) ∧
    (settle s gid order b sl qty).transactions =
      s.transactions ++ [{ gameId := gid, buyerId := b, sellerId := sl,
                           playerName := order.playerName, price := order.price,
                           shares := qty }] ∧
    (settle s gid order b sl qty).orders = s.orders.map (fun o =>
      if o.oid = order.oid then
        { o with shares := o.shares - qty,
                 status := if o.shares - qty = 0 then "filled" else o.status }
      else o) := by
  refine ⟨?_, ?_, ?_⟩ <;> simp [settle]

/-- The holding table produced by `settle`. -/
theorem settle_holdings (s : AppState) (gid : Nat) (order : Order) (b sl : Nat) (qty : ℤ) :
    (settle s gid order b sl qty).holdings =
      (match (s.holdings.map (fun h =>
           if h.participantId = sl ∧ h.playerName = order.playerName then
             { h with shares := h.shares - qty } else h)).find? (fun h =>
           h.participantId == b && h.playerName == order.playerName) with
       | some _ =>
         (s.holdings.map (fun h =>
           if h.participantId = sl ∧ h.playerName = order.playerName then
             { h with shares := h.shares - qty } else h)).map (fun h =>
             if h.participantId = b ∧ h.playerName = order.playerName then
               { h with shares := h.shares + qty } else h)
       | none =>
         (s.holdings.map (fun h =>
           if h.participantId = sl ∧ h.playerName = order.playerName then
             { h with shares := h.shares - qty } else h)) ++
           [{ participantId := b, playerName := order.playerName, shares := qty }]) := by
  simp [settle]

/-- Settlement moves cash and shares between buyer and seller without
changing the cash total or the traded entity share total. -/
theorem settle_totals (s : AppState) (gid : Nat) (order : Order)
    (buyer seller : Participant) (qty : ℤ)
    (hndp : (s.participants.map (fun p => p.pid)).Nodup)
    (hndh : (s.holdings.map (fun h => (h.participantId, h.playerName))).Nodup)
    (hbmem : buyer ∈ s.participants) (hsmem : seller ∈ s.participants)
    (hne : seller.pid ≠ buyer.pid)
    (hqpos : 0 < qty)
    (hsh : qty ≤ rawShares s seller.pid order.playerName) :
    totalCash (settle s gid order buyer.pid seller.pid qty) = totalCash s ∧
    entityShares (settle s gid order buyer.pid seller.pid qty) order.playerName
      = entityShares s order.playerName := by
  constructor
  · unfold totalCash
    rw [(settle_fields s gid order buyer.pid seller.pid qty).1]
    have hpidsA : ((s.participants.map (fun p =>
        if p.pid = buyer.pid then { p with cash := p.cash - order.price * (qty : ℚ) } else p)).map
          (fun p => p.pid)) = s.participants.map (fun p => p.pid) :=
      cash_update_pids s.participants buyer.pid (order.price * (qty : ℚ))
    have hndA : ((s.participants.map (fun p =>
        if p.pid = buyer.pid then { p with cash := p.cash - order.price * (qty : ℚ) } else p)).map
          (fun p => p.pid)).Nodup := by rw [hpidsA]; exact hndp
    have hsmemA : seller ∈ s.participants.map (fun p =>
        if p.pid = buyer.pid then { p with cash := p.cash - order.price * (qty : ℚ) } else p) := by
      have := List.mem_map_of_mem (fun p =>
        if p.pid = buyer.pid then { p with cash := p.cash - order.price * (qty : ℚ) } else p) hsmem
      simpa [hne] using this
    rw [sumCash_add _ seller.pid (order.price * (qty : ℚ)) seller hndA hsmemA rfl,
        sumCash_sub s.participants buyer.pid (order.price * (qty : ℚ)) buyer hndp hbmem rfl]
    ring
  · unfold entityShares
    rw [settle_holdings s gid order buyer.pid seller.pid qty]
    obtain ⟨h0, hfh, hsh0, h0mem, h0pid, h0pn⟩ :=
      rawShares_pos_find s seller.pid order.playerName (lt_of_lt_of_le hqpos hsh)
    have hkeysA : (((s.holdings.map (fun h =>
        if h.participantId = seller.pid ∧ h.playerName = order.playerName then
          { h with shares := h.shares - qty } else h)).map
          (fun h => (h.participantId, h.playerName)))) =
        s.holdings.map (fun h => (h.participantId, h.playerName)) :=
      seller_update_keys s.holdings seller.pid order.playerName qty
    have hndA : (((s.holdings.map (fun h =>
        if h.participantId = seller.pid ∧ h.playerName = order.playerName then
          { h with shares := h.shares - qty } else h)).map
          (fun h => (h.participantId, h.playerName)))).Nodup := by
      rw [hkeysA]; exact hndh
    rcases hfind : (s.holdings.map (fun h =>
        if h.participantId = seller.pid ∧ h.playerName = order.playerName then
          { h with shares := h.shares - qty } else h)).find? (fun h =>
        h.participantId == buyer.pid && h.playerName == order.playerName) with _ | hb
    · rw [hfind]
      rw [entitySum_append _ { participantId := buyer.pid, playerName := order.playerName, shares := qty } order.playerName rfl,
          entitySum_sub s.holdings seller.pid order.playerName qty h0 hndh h0mem h0pid h0pn]
      ring
    · rw [hfind]
      have hbmemA := List.mem_of_find?_eq_some hfind
      have hbpred := List.find?_some hfind
      simp only [Bool.and_eq_true, beq_iff_eq] at hbpred
      rw [entitySum_add _ buyer.pid order.playerName qty hb hndA hbmemA hbpred.1 hbpred.2,
          entitySum_sub s.holdings seller.pid order.playerName qty h0 hndh h0mem h0pid h0pn]
      ring

/-- C5: a successful ExecuteOrder preserves the sum of cash over all
participants and the sum of shares of the traded entity over all
Holdings (given the database uniqueness of participant ids and of
(participant, entity) Holding keys). -/
theorem execute_conserves_totals (s : AppState) (t oid : Nat) (q : Option ℤ)
    (s2 : AppState) (order : Order)
    (hnd : uniqueKeys s)
    (ho : findOrder s oid = some order)
    (hok : execute_order s t oid q = (s2, Except.ok ())) :
    totalCash s2 = totalCash s ∧
    entityShares s2 order.playerName = entityShares s order.playerName := by
  obtain ⟨participant, o2, game, creator, hp, ho2, hopen, hself, hg, hend, hq1, hq2, hcr, hcase⟩ :=
    execute_order_ok s t oid q s2 hok
  rw [ho] at ho2
  injection ho2 with ho2
  subst ho2
  obtain ⟨hndp, hndh⟩ := hnd
  have hcrpid : creator.pid = order.participantId := findParticipant_pid s _ creator hcr
  have hcmem : creator ∈ s.participants := findParticipant_mem s _ creator hcr
  have hpmem : participant ∈ s.participants := findParticipantByToken_mem s t participant hp
  rcases hcase with ⟨hty, hcash, hshares, hs2⟩ | ⟨hty, hshares, hcash, hs2⟩
  · subst hs2
    exact settle_totals s game.gid order participant creator (q.getD order.shares)
      hndp hndh hpmem hcmem (by rw [hcrpid]; exact hself) hq1 hshares
  · subst hs2
    exact settle_totals s game.gid order creator participant (q.getD order.shares)
      hndp hndh hcmem hpmem (fun he => hself ((he.trans hcrpid).symm)) hq1 hshares

/-- Witness for `execute_conserves_totals` at the partial fill of `stC6`. -/
theorem execute_conserves_totals_witness :
    totalCash stC6r = totalCash stC6 ∧
    entityShares stC6r oC6.playerName = entityShares stC6 oC6.playerName :=
  execute_conserves_totals stC6 42 1 (some 3) stC6r oC6 ⟨by decide, by decide⟩ (by decide)
    (by decide)

/-- C6: a successful ExecuteOrder for qty strictly less than the order
remaining quantity leaves the order open with its quantity reduced by
exactly qty, and appends exactly one Transaction recording qty shares at
the resting order price (the acceptor supplies no price at all). -/
theorem execute_partial_fill (s : AppState) (t oid : Nat) (q : Option ℤ) (s2 : AppState)
    (order : Order)
    (ho : findOrder s oid = some order)
    (hqlt : q.getD order.shares < order.shares)
    (hok : execute_order s t oid q = (s2, Except.ok ())) :
    (∃ o2 : Order, findOrder s2 oid = some o2 ∧ o2.status = "open" ∧
       o2.shares = order.shares - q.getD order.shares) ∧
    (∃ tr : Transaction, s2.transactions = s.transactions ++ [tr] ∧
       tr.price = order.price ∧ tr.shares = q.getD order.shares ∧
       tr.playerName = order.playerName) := by
  obtain ⟨participant, o2, game, creator, hp, ho2, hopen, hself, hg, hend, hq1, hq2, hcr, hcase⟩ :=
    execute_order_ok s t oid q s2 hok
  rw [ho] at ho2
  injection ho2 with ho2
  subst ho2
  have hoid : order.oid = oid := findOrder_oid s oid order ho
  subst hoid
  have core : ∀ gid b sl,
      (∃ o2 : Order, findOrder (settle s gid order b sl (q.getD order.shares)) order.oid = some o2 ∧
         o2.status = "open" ∧ o2.shares = order.shares - q.getD order.shares) ∧
      (∃ tr : Transaction,
         (settle s gid order b sl (q.getD order.shares)).transactions = s.transactions ++ [tr] ∧
         tr.price = order.price ∧ tr.shares = q.getD order.shares ∧
         tr.playerName = order.playerName) := by
    intro gid b sl
    constructor
    · refine ⟨{ order with
          shares := order.shares - q.getD order.shares,
          status := if order.shares - q.getD order.shares = 0 then "filled" else order.status },
        ?_, ?_, rfl⟩
      · unfold findOrder
        rw [(settle_fields s gid order b sl (q.getD order.shares)).2.2]
        exact find_oid_map s.orders order.oid order (fun x => { x with shares := x.shares - q.getD order.shares, status := if x.shares - q.getD order.shares = 0 then "filled" else x.status }) (fun x => rfl) ho
      · show (if order.shares - q.getD order.shares = 0 then "filled" else order.status) = "open"
        rw [if_neg (by omega)]
        exact hopen
    · exact ⟨_, (settle_fields s gid order b sl (q.getD order.shares)).2.1, rfl, rfl, rfl⟩
  rcases hcase with ⟨hty, hcash, hsh, hs2⟩ | ⟨hty, hsh, hcash, hs2⟩ <;> subst hs2 <;>
    exact core _ _ _

/-- Witness for `execute_partial_fill`: Scenario C on `stC6`. -/
theorem execute_partial_fill_witness :
    (∃ o2 : Order, findOrder stC6r 1 = some o2 ∧ o2.status = "open" ∧
       o2.shares = oC6.shares - (some (3 : ℤ)).getD oC6.shares) ∧
    (∃ tr : Transaction, stC6r.transactions = stC6.transactions ++ [tr] ∧
       tr.price = oC6.price ∧ tr.shares = (some (3 : ℤ)).getD oC6.shares ∧
       tr.playerName = oC6.playerName) :=
  execute_partial_fill stC6 42 1 (some 3) stC6r oC6 (by decide) (by decide) (by decide)

/-- Settlement keeps every cash balance and share count nonnegative when
the validated guards hold. -/
theorem settle_nonneg (s : AppState) (gid : Nat) (order : Order)
    (buyer seller : Participant) (qty : ℤ)
    (hndp : (s.participants.map (fun p => p.pid)).Nodup)
    (hndh : (s.holdings.map (fun h => (h.participantId, h.playerName))).Nodup)
    (hbmem : buyer ∈ s.participants)
    (hne : seller.pid ≠ buyer.pid)
    (hqpos : 0 < qty) (hprice : 0 ≤ order.price)
    (hcash : order.price * (qty : ℚ) ≤ buyer.cash)
    (hsh : qty ≤ rawShares s seller.pid order.playerName)
    (hb : nonnegBalances s) :
    nonnegBalances (settle s gid order buyer.pid seller.pid qty) := by
  have hcost : 0 ≤ order.price * (qty : ℚ) :=
    mul_nonneg hprice (by exact_mod_cast le_of_lt hqpos)
  obtain ⟨h0, hfh, hsh0, h0mem, h0pid, h0pn⟩ :=
    rawShares_pos_find s seller.pid order.playerName (lt_of_lt_of_le hqpos hsh)
  constructor
  · intro x hx
    rw [(settle_fields s gid order buyer.pid seller.pid qty).1] at hx
    obtain ⟨y, hy, hxy⟩ := List.mem_map.mp hx
    obtain ⟨p, hpm, hyp⟩ := List.mem_map.mp hy
    subst hyp
    subst hxy
    by_cases hpb : p.pid = buyer.pid
    · have hpeq : p = buyer := List.inj_on_of_nodup_map hndp hpm hbmem hpb
      subst hpeq
      rw [if_pos hpb, if_neg (by dsimp only; rw [hpb]; exact fun h => hne h.symm)]
      dsimp only
      linarith [hcash]
    · rw [if_neg hpb]
      by_cases hps : p.pid = seller.pid
      · rw [if_pos hps]
        dsimp only
        linarith [hb.1 p hpm, hcost]
      · rw [if_neg hps]
        exact hb.1 p hpm
  · intro x hx
    rw [settle_holdings s gid order buyer.pid seller.pid qty] at hx
    have hsub : ∀ h ∈ s.holdings,
        (0 : ℤ) ≤ (if h.participantId = seller.pid ∧ h.playerName = order.playerName
          then { h with shares := h.shares - qty } else h).shares := by
      intro h hm
      by_cases hk : h.participantId = seller.pid ∧ h.playerName = order.playerName
      · have hkey : h = h0 := by
          apply List.inj_on_of_nodup_map hndh hm h0mem
          rw [hk.1, hk.2, h0pid, h0pn]
        subst hkey
        rw [if_pos hk]
        dsimp only
        omega
      · rw [if_neg hk]
        exact hb.2 h hm
    rcases hfind : (s.holdings.map (fun h =>
        if h.participantId = seller.pid ∧ h.playerName = order.playerName then
          { h with shares := h.shares - qty } else h)).find? (fun h =>
        h.participantId == buyer.pid && h.playerName == order.playerName) with _ | hbh
    · rw [hfind] at hx
      rcases List.mem_append.mp hx with hx2 | hx2
      · obtain ⟨h, hm, hxh⟩ := List.mem_map.mp hx2
        subst hxh
        exact hsub h hm
      · rw [List.mem_singleton.mp hx2]
        dsimp only
        omega
    · rw [hfind] at hx
      obtain ⟨y, hy, hxy⟩ := List.mem_map.mp hx
      obtain ⟨h, hm, hyh⟩ := List.mem_map.mp hy
      subst hyh
      subst hxy
      by_cases hk2 : (if h.participantId = seller.pid ∧ h.playerName = order.playerName
          then { h with shares := h.shares - qty } else h).participantId = buyer.pid ∧
          (if h.participantId = seller.pid ∧ h.playerName = order.playerName
          then { h with shares := h.shares - qty } else h).playerName = order.playerName
      · rw [if_pos hk2]
        dsimp only
        have := hsub h hm
        omega
      · rw [if_neg hk2]
        exact hsub h hm

/-- C4: every committed operation (place, execute, cancel, cancel-all,
end-game) preserves nonnegativity of every cash balance and every
Holding share count (given database key uniqueness and nonnegative
order prices). -/
theorem step_preserves_nonneg_balances (s : AppState) (op : Op)
    (hnd : uniqueKeys s) (hpr : nonnegPrices s) (hb : nonnegBalances s) :
    nonnegBalances (step s op) := by
  cases op with
  | placeOp t ot pn pr sh =>
    obtain ⟨h1, h2⟩ := place_order_tables s t ot pn pr sh
    exact ⟨fun p hp => hb.1 p (by rw [← h1]; exact hp),
           fun h hh => hb.2 h (by rw [← h2]; exact hh)⟩
  | cancelOp t oid =>
    obtain ⟨h1, h2⟩ := cancel_order_tables s t oid
    exact ⟨fun p hp => hb.1 p (by rw [← h1]; exact hp),
           fun h hh => hb.2 h (by rw [← h2]; exact hh)⟩
  | cancelAllOp t ot =>
    obtain ⟨h1, h2⟩ := cancel_all_orders_tables s t ot
    exact ⟨fun p hp => hb.1 p (by rw [← h1]; exact hp),
           fun h hh => hb.2 h (by rw [← h2]; exact hh)⟩
  | endGameOp t wp fs fp =>
    obtain ⟨h1, h2⟩ := end_game_tables s t wp fs fp
    exact ⟨fun p hp => hb.1 p (by rw [← h1]; exact hp),
           fun h hh => hb.2 h (by rw [← h2]; exact hh)⟩
  | executeOp t oid q =>
    show nonnegBalances (execute_order s t oid q).1
    rcases hE : execute_order s t oid q with ⟨s2, r⟩
    show nonnegBalances s2
    cases r with
    | error e =>
      rcases execute_order_error_state s t oid q s2 e hE with rfl | rfl
      · exact hb
      · exact hb
    | ok u =>
      cases u
      obtain ⟨participant, order, game, creator, hp, ho, hopen, hself, hg, hend,
        hq1, hq2, hcr, hcase⟩ := execute_order_ok s t oid q s2 hE
      have hprice : 0 ≤ order.price := hpr order (List.mem_of_find?_eq_some ho)
      have hcrpid : creator.pid = order.participantId := findParticipant_pid s _ creator hcr
      rcases hcase with ⟨hty, hcash, hsh, rfl⟩ | ⟨hty, hsh, hcash, rfl⟩
      · exact settle_nonneg s game.gid order participant creator (q.getD order.shares)
          hnd.1 hnd.2 (findParticipantByToken_mem s t participant hp)
          (by rw [hcrpid]; exact hself) hq1 hprice hcash hsh hb
      · exact settle_nonneg s game.gid order creator participant (q.getD order.shares)
          hnd.1 hnd.2 (findParticipant_mem s _ creator hcr)
          (fun he => hself ((he.trans hcrpid).symm)) hq1 hprice hcash hsh hb

/-- Witness for `step_preserves_nonneg_balances` at the `stC6` execution. -/
theorem step_preserves_nonneg_balances_witness :
    nonnegBalances (step stC6 (Op.executeOp 42 1 (some 3))) :=
  step_preserves_nonneg_balances stC6 (Op.executeOp 42 1 (some 3))
    ⟨by decide, by decide⟩ (by unfold nonnegPrices; decide)
    ⟨by unfold stC6; decide, by unfold stC6; decide⟩
end GameTraders
